import Mathlib

/-!
Verification of the filter-and-aggregate pipeline of the life-expectancy
dashboard (src/streamlit/app.py).  A dataset is modelled as an ordered list
of records; a missing cell (pandas NaN) is modelled with Option; numeric
cells are modelled with exact rational arithmetic.
-/

/-- One record of the dataset after column normalization.  The columns are the
canonical ones required by the core (year, status, country, life_expectancy)
plus the numeric indicator columns used by the charts.  A missing cell is
`none`. -/
structure Row where
  country : String
  year : Option Int
  status : Option String
  life_expectancy : Option ℚ
  gdp : Option ℚ
  adult_mortality : Option ℚ
  bmi : Option ℚ
  schooling : Option ℚ
  infant_deaths : Option ℚ
deriving DecidableEq, Repr

/-! ### Schema Normalizer (app.py lines 32-37) -/

/-- Whitespace characters removed by the Python str.strip call on the headers. -/
def isPyWS (c : Char) : Bool :=
  c == ' ' || c == '\t' || c == '\n' || c == '\r' || c == '\x0b' || c == '\x0c'

/-- Remove leading and trailing whitespace characters (str.strip). -/
def stripChars (l : List Char) : List Char :=
  ((l.dropWhile isPyWS).reverse.dropWhile isPyWS).reverse

/-- ASCII lowercasing of a single character (str.lower restricted to the
ASCII letters appearing in the CSV headers). -/
def lowerChar (c : Char) : Char :=
  if 65 ≤ c.toNat ∧ c.toNat ≤ 90 then Char.ofNat (c.toNat + 32) else c

/-- Replace every occurrence of the character a by the character b
(str.replace with one-character arguments). -/
def replaceChar (a b : Char) (l : List Char) : List Char :=
  l.map fun c => if c = a then b else c

/-- The header-cleaning chain of app.py lines 32-37: strip whitespace,
lowercase, replace spaces with underscores, replace hyphens with
underscores. -/
def normalizeName (s : String) : String :=
  ⟨replaceChar '-' '_' (replaceChar ' ' '_' ((stripChars s.data).map lowerChar))⟩

/-- The assignment to df.columns: every raw header is normalized. -/
def cleanColumns (names : List String) : List String :=
  names.map normalizeName

/-- Single-character form of the normalization contract as the spec words it:
after stripping, a space or hyphen becomes the separator and every other
character is lowercased. -/
def canonChar (c : Char) : Char :=
  if c = ' ' ∨ c = '-' then '_' else lowerChar c

/-- Single-pass form of the spec's normalization contract, to be compared
with the chained implementation. -/
def normalizeNameSpec (s : String) : String :=
  ⟨(stripChars s.data).map canonChar⟩

/-! ### Filter Engine (app.py lines 44-62) -/

/-- Membership test of a possibly-missing year in the selected years
(pandas Series.isin: a missing value never matches a selection drawn from the
non-missing values). -/
def yearMem (y : Option Int) (sel : List Int) : Bool :=
  match y with
  | some v => sel.contains v
  | none => false

/-- Membership test of a possibly-missing status in the selected statuses. -/
def statusMem (s : Option String) (sel : List String) : Bool :=
  match s with
  | some v => sel.contains v
  | none => false

/-- df_filtered (app.py lines 59-62): keep exactly the rows whose year is in
the selected years and whose status is in the selected statuses. -/
def filterD (df : List Row) (selYears : List Int) (selStatuses : List String) : List Row :=
  df.filter fun r => yearMem r.year selYears && statusMem r.status selStatuses

/-! ### Distinct values, selections and defaults (app.py lines 44-57) -/

/-- Lexicographic comparison of character lists by code point, the order in
which Python sorts strings. -/
def charListLt : List Char → List Char → Bool
  | [], [] => false
  | [], _ :: _ => true
  | _ :: _, [] => false
  | a :: as, b :: bs =>
    if a.toNat < b.toNat then true
    else if b.toNat < a.toNat then false
    else charListLt as bs

/-- Python string comparison: s at most t. -/
def pyStrLe (s t : String) : Bool := !(charListLt t.data s.data)

/-- sorted(df[...].dropna().unique()) for the year column: the distinct
non-missing years in ascending order. -/
def sortedDistinctYears (df : List Row) : List Int :=
  List.insertionSort (fun a b => a ≤ b) (df.filterMap Row.year).dedup

/-- sorted(df[...].dropna().unique()) for the status column. -/
def sortedDistinctStatuses (df : List Row) : List String :=
  List.insertionSort (fun s t => pyStrLe s t = true) (df.filterMap Row.status).dedup

/-- Default year selection (app.py line 50): the last ten distinct years when
at least ten exist, otherwise all of them. -/
def defaultYears (df : List Row) : List Int :=
  if 10 ≤ (sortedDistinctYears df).length then
    (sortedDistinctYears df).drop ((sortedDistinctYears df).length - 10)
  else sortedDistinctYears df

/-- Default status selection (app.py line 56): all distinct statuses. -/
def defaultStatuses (df : List Row) : List String :=
  sortedDistinctStatuses df

/-! ### View Aggregator: yearly mean (app.py line 84) -/

/-- The non-missing life-expectancy values of the rows carrying the given
year. -/
def valuesOfYear (f : List Row) (y : Int) : List ℚ :=
  (f.filter fun r => r.year == some y).filterMap Row.life_expectancy

/-- The mean of a list of rational values; none when the list is empty
(the pandas mean of a group with no non-missing value is NaN). -/
def meanOpt (vs : List ℚ) : Option ℚ :=
  if vs.length = 0 then none else some (vs.sum / vs.length)

/-- df_filtered.groupby("year")["life_expectancy"].mean() (app.py line 84):
one (year, mean) pair per distinct non-missing year, keys ascending, with
missing values excluded from each mean. -/
def yearlyMean (f : List Row) : List (Int × Option ℚ) :=
  (sortedDistinctYears f).map fun y => (y, meanOpt (valuesOfYear f y))

/-! ### View Aggregator: top ten of the latest year (app.py lines 94-98) -/

/-- df_filtered["year"].max(): the largest non-missing year, none when there
is none (the pandas max of an empty or all-missing column is NaN). -/
def latestYear (f : List Row) : Option Int :=
  (f.filterMap Row.year).max?

/-- The rows whose year equals the latest year; a missing year never
compares equal, and when no year is present at all the subset is empty. -/
def latestSub (f : List Row) : List Row :=
  match latestYear f with
  | none => []
  | some y => f.filter fun r => r.year == some y

/-- Position-annotated rows whose value in the ranked column is non-missing
(pandas nlargest drops rows with a missing sort key). -/
def candRows (v : Row → Option ℚ) (rows : List Row) : List (Nat × Row) :=
  rows.enum.filter fun p => (v p.2).isSome

/-- The ranking order of pandas nlargest with keep set to first: larger
values first, ties broken by the earlier original position. -/
def rankLE (v : Row → Option ℚ) (a b : Nat × Row) : Prop :=
  (v b.2).getD 0 < (v a.2).getD 0 ∨ ((v a.2).getD 0 = (v b.2).getD 0 ∧ a.1 ≤ b.1)

instance rankLEDec (v : Row → Option ℚ) : DecidableRel (rankLE v) := fun a b => by
  unfold rankLE
  infer_instance

instance rankLETotal (v : Row → Option ℚ) : IsTotal (Nat × Row) (rankLE v) := by
  constructor
  intro a b
  rcases lt_trichotomy ((v a.2).getD 0) ((v b.2).getD 0) with h | h | h
  · exact Or.inr (Or.inl h)
  · rcases Nat.le_total a.1 b.1 with hi | hi
    · exact Or.inl (Or.inr ⟨h, hi⟩)
    · exact Or.inr (Or.inr ⟨h.symm, hi⟩)
  · exact Or.inl (Or.inl h)

instance rankLETrans (v : Row → Option ℚ) : IsTrans (Nat × Row) (rankLE v) := by
  constructor
  intro a b c hab hbc
  rcases hab with h1 | ⟨h1, i1⟩
  · rcases hbc with h2 | ⟨h2, i2⟩
    · exact Or.inl (h2.trans h1)
    · exact Or.inl (h2 ▸ h1)
  · rcases hbc with h2 | ⟨h2, i2⟩
    · exact Or.inl (by rw [h1]; exact h2)
    · exact Or.inr ⟨h1.trans h2, i1.trans i2⟩

/-- nlargest(n, column): the first n position-annotated candidate rows in
ranking order. -/
def nlargestEnum (v : Row → Option ℚ) (n : Nat) (rows : List Row) : List (Nat × Row) :=
  (List.insertionSort (rankLE v) (candRows v rows)).take n

/-- top10 (app.py lines 94-98): the ten rows of the latest year with the
largest life expectancy. -/
def top10Model (f : List Row) : List Row :=
  (nlargestEnum Row.life_expectancy 10 (latestSub f)).map Prod.snd

/-! ### View Aggregator: distribution (app.py lines 149-158) -/

/-- The non-missing life-expectancy values of the filtered rows (the
histogram drops missing values before binning). -/
def lifeValues (f : List Row) : List ℚ :=
  f.filterMap Row.life_expectancy

/-- Equal-width histogram counts under the numpy binning rule: the bins span
the closed range from the minimum to the maximum value (widened by one half
on each side when the two coincide); every bin is closed on the left and
open on the right except the last, which is closed on both sides.  An empty
value list yields no bins at all. -/
def histCounts (bins : Nat) (vs : List ℚ) : List Nat :=
  match vs with
  | [] => []
  | v :: t =>
    let lo := t.foldl min v
    let hi := t.foldl max v
    let lo2 := if lo = hi then lo - 1 / 2 else lo
    let hi2 := if lo = hi then hi + 1 / 2 else hi
    let w := (hi2 - lo2) / (bins : ℚ)
    (List.range bins).map fun i =>
      ((v :: t).filter fun x =>
        if i + 1 = bins then decide (lo2 + i * w ≤ x) && decide (x ≤ hi2)
        else decide (lo2 + i * w ≤ x) && decide (x < lo2 + (i + 1) * w)).length

/-- The histogram of app.py lines 149-158: thirty bins over the non-missing
life-expectancy values of the filtered rows. -/
def distributionModel (f : List Row) : List Nat :=
  histCounts 30 (lifeValues f)

/-! ### View Aggregator: correlation heatmap (app.py lines 200-207) -/

/-- The numeric columns of the modelled dataset
(df_filtered.select_dtypes(include="number")). -/
inductive NumCol
  | year
  | life_expectancy
  | gdp
  | adult_mortality
  | bmi
  | schooling
  | infant_deaths
deriving DecidableEq, Repr

/-- The value of one numeric column in one row. -/
def colVal : NumCol → Row → Option ℚ
  | .year, r => r.year.map fun z => (z : ℚ)
  | .life_expectancy, r => r.life_expectancy
  | .gdp, r => r.gdp
  | .adult_mortality, r => r.adult_mortality
  | .bmi, r => r.bmi
  | .schooling, r => r.schooling
  | .infant_deaths, r => r.infant_deaths

/-- The non-missing values of one column. -/
def colList (f : List Row) (i : NumCol) : List ℚ :=
  f.filterMap fun r => colVal i r

/-- The pairwise-complete observations of two columns: the value pairs of
exactly the rows in which both columns are non-missing. -/
def pairColumn (f : List Row) (i j : NumCol) : List (ℚ × ℚ) :=
  f.filterMap fun r =>
    match colVal i r, colVal j r with
    | some a, some b => some (a, b)
    | _, _ => none

/-- The mean of a value list (zero on the empty list, never reached under
the guards below). -/
def meanQ (l : List ℚ) : ℚ := l.sum / l.length

/-- The centered square sum of a value list, the numerator of its
variance. -/
def varSum (l : List ℚ) : ℚ :=
  (l.map fun x => (x - meanQ l) * (x - meanQ l)).sum

/-- The centered cross sum of a list of value pairs, the numerator of the
covariance. -/
def covSum (ps : List (ℚ × ℚ)) : ℚ :=
  (ps.map fun p =>
    (p.1 - meanQ (ps.map Prod.fst)) * (p.2 - meanQ (ps.map Prod.snd))).sum

/-- Pearson correlation data of the pandas nancorr kernel in exact
arithmetic: none when there is no pairwise-complete observation or when the
divisor vanishes (a zero-variance column); otherwise the pair of the
centered cross sum and of the product of the two centered square sums,
denoting the coefficient covxy divided by the square root of vx times vy. -/
def corrPre (ps : List (ℚ × ℚ)) : Option (ℚ × ℚ) :=
  if ps.length = 0 then none
  else if varSum (ps.map Prod.fst) * varSum (ps.map Prod.snd) = 0 then none
  else some (covSum ps, varSum (ps.map Prod.fst) * varSum (ps.map Prod.snd))

/-- Entry (i, j) of numeric_df.corr() (app.py lines 200-207). -/
def corrEntry (f : List Row) (i j : NumCol) : Option (ℚ × ℚ) :=
  corrPre (pairColumn f i j)

/-- The coefficient denoted by the pair (c, d), namely c divided by the
square root of d, equals one exactly: c is positive and its square is d. -/
def denotesOne (p : ℚ × ℚ) : Prop := 0 < p.1 ∧ p.1 * p.1 = p.2

/-! ### Page pipeline and the empty-filter guard (app.py lines 59-66) -/

/-- The derived tables handed to the ten chart calls. -/
structure Views where
  avgLife : List (Int × Option ℚ)
  topCountries : List Row
  lifeDist : List Nat
  corrMat : NumCol → NumCol → Option (ℚ × ℚ)

/-- The script after the sidebar: filter, halt with a warning when the
filtered dataset is empty (st.stop, modelled as none), otherwise compute
every derived view on the nonempty filtered dataset. -/
def pipeline (df : List Row) (selY : List Int) (selS : List String) : Option Views :=
  if (filterD df selY selS).isEmpty then none
  else some
    { avgLife := yearlyMean (filterD df selY selS)
      topCountries := top10Model (filterD df selY selS)
      lifeDist := distributionModel (filterD df selY selS)
      corrMat := fun i j => corrEntry (filterD df selY selS) i j }

/-! ### Concrete sample data -/

/-- A sample row with the given country, year, status, life expectancy and
gdp; every other indicator is missing. -/
def mkRow (c : String) (y : Option Int) (st : Option String) (lv gv : Option ℚ) : Row :=
  { country := c, year := y, status := st, life_expectancy := lv, gdp := gv,
    adult_mortality := none, bmi := none, schooling := none, infant_deaths := none }

/-- Eleven one-row years 2000 to 2010. -/
def elevenYearData : List Row :=
  (List.range 11).map fun k => mkRow "X" (some (2000 + (k : Int))) (some "Developing") (some 70) none

/-- One latest-year row whose life expectancy is missing. -/
def missingValueData : List Row :=
  [mkRow "A" (some 2015) (some "Developing") none none]

/-- Two latest-year rows with life expectancies seventy and eighty. -/
def twoRowData : List Row :=
  [mkRow "A" (some 2015) (some "Developing") (some 70) none,
   mkRow "B" (some 2015) (some "Developing") (some 80) none]

/-- One year with one present and one missing life expectancy. -/
def halfMissingData : List Row :=
  [mkRow "A" (some 2010) (some "Developing") (some 70) none,
   mkRow "B" (some 2010) (some "Developing") none none]

/-- Two rows with the constant gdp five. -/
def constantGdpData : List Row :=
  [mkRow "A" (some 2000) (some "Developing") none (some 5),
   mkRow "B" (some 2000) (some "Developing") none (some 5)]

/-- Two rows with distinct gdp values one and two. -/
def twoGdpData : List Row :=
  [mkRow "A" (some 2000) (some "Developing") none (some 1),
   mkRow "B" (some 2000) (some "Developing") none (some 2)]

/-- A one-row dataset fed to the pipeline. -/
def pipelineData : List Row :=
  [mkRow "P" (some 2000) (some "Developing") (some 70) none]

/-- The views the pipeline computes on the filtered pipeline sample. -/
def pipelineViews : Views :=
  { avgLife := yearlyMean (filterD pipelineData [2000] ["Developing"])
    topCountries := top10Model (filterD pipelineData [2000] ["Developing"])
    lifeDist := distributionModel (filterD pipelineData [2000] ["Developing"])
    corrMat := fun i j => corrEntry (filterD pipelineData [2000] ["Developing"]) i j }

/-! ### Helper lemmas about characters and stripping -/

theorem lower_shift_props (n : Nat) (h1 : 65 ≤ n) (h2 : n ≤ 90) :
    isPyWS (Char.ofNat (n + 32)) = false ∧ Char.ofNat (n + 32) ≠ ' ' ∧
    Char.ofNat (n + 32) ≠ '-' ∧ lowerChar (Char.ofNat (n + 32)) = Char.ofNat (n + 32) := by
  interval_cases n <;> exact ⟨by decide, by decide, by decide, by decide⟩

theorem lowerChar_of_range {c : Char} (h : 65 ≤ c.toNat ∧ c.toNat ≤ 90) :
    lowerChar c = Char.ofNat (c.toNat + 32) := by
  simp [lowerChar, h]

theorem lowerChar_of_not_range {c : Char} (h : ¬(65 ≤ c.toNat ∧ c.toNat ≤ 90)) :
    lowerChar c = c := by
  simp [lowerChar, h]

theorem lowerChar_props (c : Char) :
    (c ≠ ' ' → lowerChar c ≠ ' ') ∧ (c ≠ '-' → lowerChar c ≠ '-') ∧
    (isPyWS c = false → isPyWS (lowerChar c) = false) := by
  by_cases h : 65 ≤ c.toNat ∧ c.toNat ≤ 90
  · rw [lowerChar_of_range h]
    obtain ⟨hw, hs, hh, _⟩ := lower_shift_props c.toNat h.1 h.2
    exact ⟨fun _ => hs, fun _ => hh, fun _ => hw⟩
  · rw [lowerChar_of_not_range h]
    exact ⟨id, id, id⟩

theorem lowerChar_idem (c : Char) : lowerChar (lowerChar c) = lowerChar c := by
  by_cases h : 65 ≤ c.toNat ∧ c.toNat ≤ 90
  · rw [lowerChar_of_range h]
    exact (lower_shift_props c.toNat h.1 h.2).2.2.2
  · rw [lowerChar_of_not_range h, lowerChar_of_not_range h]

theorem canonChar_pipe (c : Char) :
    (fun x => if x = '-' then '_' else x) ((fun x => if x = ' ' then '_' else x) (lowerChar c)) =
      canonChar c := by
  by_cases hsp : c = ' '
  · subst hsp; decide
  · by_cases hhy : c = '-'
    · subst hhy; decide
    · have h1 := (lowerChar_props c).1 hsp
      have h2 := (lowerChar_props c).2.1 hhy
      simp only [canonChar, if_neg h1, if_neg h2]
      rw [if_neg]
      rintro (h | h)
      · exact hsp h
      · exact hhy h

theorem canonChar_ws {c : Char} (h : isPyWS c = false) : isPyWS (canonChar c) = false := by
  unfold canonChar
  split
  · decide
  · exact (lowerChar_props c).2.2 h

theorem canonChar_idem (c : Char) : canonChar (canonChar c) = canonChar c := by
  by_cases hc : c = ' ' ∨ c = '-'
  · simp only [canonChar, if_pos hc]; decide
  · have h1 : c ≠ ' ' := fun h => hc (Or.inl h)
    have h2 : c ≠ '-' := fun h => hc (Or.inr h)
    rw [show canonChar c = lowerChar c from by rw [canonChar, if_neg hc]]
    rw [canonChar, if_neg, lowerChar_idem]
    rintro (h | h)
    · exact (lowerChar_props c).1 h1 h
    · exact (lowerChar_props c).2.1 h2 h

theorem normalizeName_eq_spec (s : String) : normalizeName s = normalizeNameSpec s := by
  unfold normalizeName normalizeNameSpec replaceChar
  congr 1
  rw [List.map_map, List.map_map]
  exact List.map_congr_left fun c _ => canonChar_pipe c

theorem head?_dropWhile_false {α : Type} {p : α → Bool} :
    ∀ (l : List α) (a : α), (l.dropWhile p).head? = some a → p a = false := by
  intro l
  induction l with
  | nil => intro a h; simp at h
  | cons b t ih =>
    intro a h
    rw [List.dropWhile_cons] at h
    split at h
    · exact ih a h
    · next hb =>
      simp only [List.head?_cons, Option.some.injEq] at h
      subst h
      simpa using hb

theorem dropWhile_eq_self_of_head {α : Type} (p : α → Bool) (l : List α)
    (h : ∀ a, l.head? = some a → p a = false) : l.dropWhile p = l := by
  cases l with
  | nil => rfl
  | cons b t => simp [List.dropWhile_cons, h b rfl]

theorem strip_boundaries (l : List Char) :
    (∀ a, (stripChars l).head? = some a → isPyWS a = false) ∧
    (∀ a, (stripChars l).getLast? = some a → isPyWS a = false) := by
  unfold stripChars
  constructor
  · intro a ha
    rw [List.head?_reverse] at ha
    obtain ⟨w, hw⟩ := List.dropWhile_suffix (l := (l.dropWhile isPyWS).reverse) isPyWS
    have hu : (l.dropWhile isPyWS).reverse.getLast? = some a := by
      rw [← hw, List.getLast?_append, ha]
      rfl
    rw [List.getLast?_reverse] at hu
    exact head?_dropWhile_false l a hu
  · intro a ha
    rw [List.getLast?_reverse] at ha
    exact head?_dropWhile_false _ a ha

theorem strip_eq_self_of_boundaries (l : List Char)
    (h1 : ∀ a, l.head? = some a → isPyWS a = false)
    (h2 : ∀ a, l.getLast? = some a → isPyWS a = false) : stripChars l = l := by
  unfold stripChars
  rw [dropWhile_eq_self_of_head _ _ h1]
  rw [dropWhile_eq_self_of_head _ _ (fun a ha => h2 a (by rwa [List.head?_reverse] at ha))]
  exact List.reverse_reverse l

theorem normalizeNameSpec_idem (s : String) :
    normalizeNameSpec (normalizeNameSpec s) = normalizeNameSpec s := by
  show normalizeNameSpec ⟨(stripChars s.data).map canonChar⟩ = _
  unfold normalizeNameSpec
  have hb := strip_boundaries s.data
  have hstrip : stripChars ((stripChars s.data).map canonChar) = (stripChars s.data).map canonChar := by
    apply strip_eq_self_of_boundaries
    · intro a ha
      rw [List.head?_map] at ha
      obtain ⟨b, hb1, hb2⟩ := Option.map_eq_some'.mp ha
      subst hb2
      exact canonChar_ws (hb.1 b hb1)
    · intro a ha
      rw [List.getLast?_map] at ha
      obtain ⟨b, hb1, hb2⟩ := Option.map_eq_some'.mp ha
      subst hb2
      exact canonChar_ws (hb.2 b hb1)
  rw [show (⟨(stripChars s.data).map canonChar⟩ : String).data = (stripChars s.data).map canonChar from rfl]
  rw [hstrip]
  congr 1
  rw [List.map_map]
  exact List.map_congr_left fun c _ => canonChar_idem c

theorem normalizeName_idem (s : String) :
    normalizeName (normalizeName s) = normalizeName s := by
  rw [normalizeName_eq_spec, normalizeName_eq_spec, normalizeNameSpec_idem,
    ← normalizeName_eq_spec]

/-! ### Claim theorems: Schema Normalizer -/

/-- C5: the Schema Normalizer returns a name sequence of equal length and
order, in which each name is the input stripped of surrounding whitespace,
lowercased, with spaces and hyphens replaced by the separator character. -/
theorem schema_normalizer_elementwise (names : List String) :
    (cleanColumns names).length = names.length ∧
    ∀ i : Nat, (cleanColumns names)[i]? = (names[i]?).map normalizeNameSpec := by
  constructor
  · simp [cleanColumns]
  · intro i
    unfold cleanColumns
    rw [List.getElem?_map]
    cases names[i]? with
    | none => rfl
    | some s => simp [normalizeName_eq_spec]

/-- C9: the Schema Normalizer is idempotent: normalizing an already
normalized name sequence returns it unchanged. -/
theorem schema_normalizer_idempotent (names : List String) :
    cleanColumns (cleanColumns names) = cleanColumns names := by
  unfold cleanColumns
  rw [List.map_map]
  exact List.map_congr_left fun s _ => normalizeName_idem s

/-! ### Claim theorems: Filter Engine -/

/-- C1: a row of D appears in the filtered dataset iff its year is a member
of the selected years and its status a member of the selected statuses; the
filtered dataset is a sublist of D (row content and relative order are
unchanged) and each retained row keeps its exact multiplicity. -/
theorem filter_engine_spec (D : List Row) (Y : List Int) (S : List String) :
    (∀ r : Row, r ∈ filterD D Y S ↔ r ∈ D ∧ yearMem r.year Y = true ∧ statusMem r.status S = true) ∧
    (filterD D Y S).Sublist D ∧
    (∀ r : Row, (filterD D Y S).count r =
      if yearMem r.year Y && statusMem r.status S then D.count r else 0) := by
  refine ⟨fun r => ?_, List.filter_sublist D, fun r => ?_⟩
  · rw [filterD, List.mem_filter, Bool.and_eq_true]
  · by_cases h : (yearMem r.year Y && statusMem r.status S) = true
    · rw [if_pos h]
      exact List.count_filter h
    · rw [if_neg h, List.count_eq_zero]
      intro hmem
      exact h ((List.mem_filter.mp hmem).2)

/-! ### Helper lemmas about distinct values and sorting -/

theorem mem_sortedDistinctYears {D : List Row} {y : Int} :
    y ∈ sortedDistinctYears D ↔ some y ∈ D.map Row.year := by
  unfold sortedDistinctYears
  rw [(List.perm_insertionSort _ _).mem_iff, List.mem_dedup, List.mem_filterMap]
  constructor
  · rintro ⟨r, hr, hy⟩
    exact List.mem_map.mpr ⟨r, hr, hy⟩
  · intro h
    obtain ⟨r, hr, hy⟩ := List.mem_map.mp h
    exact ⟨r, hr, hy⟩

theorem mem_sortedDistinctStatuses {D : List Row} {s : String} :
    s ∈ sortedDistinctStatuses D ↔ some s ∈ D.map Row.status := by
  unfold sortedDistinctStatuses
  rw [(List.perm_insertionSort _ _).mem_iff, List.mem_dedup, List.mem_filterMap]
  constructor
  · rintro ⟨r, hr, hs⟩
    exact List.mem_map.mpr ⟨r, hr, hs⟩
  · intro h
    obtain ⟨r, hr, hs⟩ := List.mem_map.mp h
    exact ⟨r, hr, hs⟩

theorem sortedDistinctYears_sorted (D : List Row) :
    List.Sorted (· < ·) (sortedDistinctYears D) := by
  have hs : List.Sorted (· ≤ ·) (sortedDistinctYears D) :=
    List.sorted_insertionSort (fun a b : Int => a ≤ b) _
  have hn : (sortedDistinctYears D).Nodup :=
    (List.perm_insertionSort _ _).nodup_iff.mpr (List.nodup_dedup _)
  exact hs.lt_of_le hn

/-! ### Claim theorems: selections, defaults and identity filtering -/

/-- C8 counterexample: on a dataset with eleven distinct years the offered
default year selection is only the last ten of them, not the full
distinct-value set. -/
theorem default_years_counterexample :
    sortedDistinctYears elevenYearData =
      [2000, 2001, 2002, 2003, 2004, 2005, 2006, 2007, 2008, 2009, 2010] ∧
    defaultYears elevenYearData =
      [2001, 2002, 2003, 2004, 2005, 2006, 2007, 2008, 2009, 2010] :=
  ⟨by decide, by decide⟩

/-- C8 amended: the default status selection is the full distinct-value set;
the default year selection is a suffix of the ascending distinct years of
length the smaller of ten and their number (the most recent ten); and
filtering with the full distinct year and status sets returns exactly the
input dataset, order preserved, for datasets whose rows all carry a year and
a status. -/
theorem filter_defaults_and_identity (D : List Row) :
    defaultStatuses D = sortedDistinctStatuses D ∧
    defaultYears D <:+ sortedDistinctYears D ∧
    (defaultYears D).length = min 10 (sortedDistinctYears D).length ∧
    ((∀ r ∈ D, r.year.isSome ∧ r.status.isSome) →
      filterD D (sortedDistinctYears D) (sortedDistinctStatuses D) = D) := by
  refine ⟨rfl, ?_, ?_, ?_⟩
  · unfold defaultYears
    split
    · exact List.drop_suffix _ _
    · exact List.suffix_rfl
  · unfold defaultYears
    split
    · next h =>
      rw [List.length_drop]
      omega
    · next h =>
      omega
  · intro hall
    unfold filterD
    rw [List.filter_eq_self]
    intro r hr
    obtain ⟨hy, hs⟩ := hall r hr
    obtain ⟨y, hy2⟩ := Option.isSome_iff_exists.mp hy
    obtain ⟨s, hs2⟩ := Option.isSome_iff_exists.mp hs
    rw [Bool.and_eq_true, hy2, hs2]
    constructor
    · simpa [yearMem] using
        mem_sortedDistinctYears.mpr (List.mem_map.mpr ⟨r, hr, hy2⟩)
    · simpa [statusMem] using
        mem_sortedDistinctStatuses.mpr (List.mem_map.mpr ⟨r, hr, hs2⟩)

/-- C8 witness: on the eleven-year sample, filtering with the full distinct
year and status sets returns the dataset unchanged. -/
theorem filter_identity_witness :
    filterD elevenYearData (sortedDistinctYears elevenYearData)
      (sortedDistinctStatuses elevenYearData) = elevenYearData :=
  (filter_defaults_and_identity elevenYearData).2.2.2 (by decide)

/-! ### Helper lemmas about the yearly mean -/

theorem yearlyMean_mem_eq {f : List Row} {y : Int} {m : Option ℚ}
    (hm : (y, m) ∈ yearlyMean f) : m = meanOpt (valuesOfYear f y) := by
  unfold yearlyMean at hm
  obtain ⟨z, _, heq⟩ := List.mem_map.mp hm
  have h1 : z = y := congrArg Prod.fst heq
  have h2 : meanOpt (valuesOfYear f z) = m := congrArg Prod.snd heq
  subst h1
  exact h2.symm

/-! ### Claim theorems: yearly mean view -/

/-- C3: the yearly mean view has exactly one pair per distinct year present
in the filtered dataset, in ascending year order; each mean is the
arithmetic mean of the non-missing values of that year, and a year with no
non-missing value yields a missing mean rather than an error or a zero. -/
theorem yearly_mean_spec (f : List Row) :
    List.Sorted (· < ·) ((yearlyMean f).map Prod.fst) ∧
    (∀ y : Int, (y, meanOpt (valuesOfYear f y)) ∈ yearlyMean f ↔ some y ∈ f.map Row.year) ∧
    (∀ (y : Int) (m : Option ℚ), (y, m) ∈ yearlyMean f → m = meanOpt (valuesOfYear f y)) ∧
    (∀ (y : Int) (m : Option ℚ), (y, m) ∈ yearlyMean f →
      (valuesOfYear f y = [] → m = none) ∧
      (∀ q : ℚ, m = some q →
        q = (valuesOfYear f y).sum / (valuesOfYear f y).length)) := by
  have hmapfst : (yearlyMean f).map Prod.fst = sortedDistinctYears f := by
    unfold yearlyMean
    rw [List.map_map]
    have hcomp : List.map (Prod.fst ∘ fun y => (y, meanOpt (valuesOfYear f y)))
        (sortedDistinctYears f) = List.map id (sortedDistinctYears f) :=
      List.map_congr_left fun y _ => rfl
    rw [hcomp, List.map_id]
  refine ⟨?_, ?_, fun y m hm => yearlyMean_mem_eq hm, ?_⟩
  · rw [hmapfst]
    exact sortedDistinctYears_sorted f
  · intro y
    unfold yearlyMean
    constructor
    · intro h
      obtain ⟨z, hz, heq⟩ := List.mem_map.mp h
      have h1 : z = y := congrArg Prod.fst heq
      subst h1
      exact mem_sortedDistinctYears.mp hz
    · intro h
      exact List.mem_map.mpr ⟨y, mem_sortedDistinctYears.mpr h, rfl⟩
  · intro y m hm
    have h3 := yearlyMean_mem_eq hm
    constructor
    · intro hvals
      rw [h3, hvals]
      rfl
    · intro q hq
      by_cases h0 : (valuesOfYear f y).length = 0
      · rw [h3, meanOpt, if_pos h0] at hq
        exact absurd hq (by simp)
      · rw [h3, meanOpt, if_neg h0] at hq
        exact (Option.some_inj.mp hq).symm

unseal Rat.add Rat.mul Rat.inv Rat.sub in
/-- C3 witness: on a year holding the value seventy and one missing value,
the yearly mean view returns that year with mean exactly seventy. -/
theorem yearly_mean_witness :
    (((2010 : Int), some (70 : ℚ)) ∈ yearlyMean halfMissingData) ∧
    some (70 : ℚ) = meanOpt (valuesOfYear halfMissingData 2010) :=
  ⟨by decide, (yearly_mean_spec halfMissingData).2.2.1 2010 (some 70) (by decide)⟩

/-! ### Claim theorems: top ten of the latest year -/

/-- C2 counterexample: a nonempty filtered dataset whose single latest-year
row has a missing life expectancy.  The claim promises that row back (one
row, fewer than n), but nlargest drops missing sort keys and returns
nothing. -/
theorem topn_missing_counterexample :
    latestSub missingValueData = missingValueData ∧
    missingValueData.length = 1 ∧
    top10Model missingValueData = [] :=
  ⟨by decide, by decide, by decide⟩

/-- C2 amended: on a nonempty filtered dataset the top-N view returns the
first n rows, in ranking order, of the latest-year rows whose ranked value
is non-missing: the result length is the smaller of n and the candidate
count, every returned row is a candidate, the returned sequence is sorted by
descending value with ties in original position order, every returned row
ranks at least as high as every dropped candidate, the candidates are
exactly the position-annotated latest-year rows with a non-missing value,
and every latest-year row is a row of the input whose year is the maximum
year present. -/
theorem topn_latest_spec (f : List Row) (v : Row → Option ℚ) (n : Nat) (hne : f ≠ []) :
    (nlargestEnum v n (latestSub f)).length = min n (candRows v (latestSub f)).length ∧
    (∀ p ∈ nlargestEnum v n (latestSub f), p ∈ candRows v (latestSub f)) ∧
    List.Sorted (rankLE v) (nlargestEnum v n (latestSub f)) ∧
    (∀ p ∈ nlargestEnum v n (latestSub f),
      ∀ q ∈ (List.insertionSort (rankLE v) (candRows v (latestSub f))).drop n, rankLE v p q) ∧
    (∀ p ∈ candRows v (latestSub f), (v p.2).isSome = true ∧ p.2 ∈ latestSub f) ∧
    (∀ r ∈ latestSub f, r ∈ f ∧ r.year = latestYear f) := by
  have hperm := List.perm_insertionSort (rankLE v) (candRows v (latestSub f))
  have hsorted := List.sorted_insertionSort (rankLE v) (candRows v (latestSub f))
  refine ⟨?_, ?_, ?_, ?_, ?_, ?_⟩
  · unfold nlargestEnum
    rw [List.length_take, hperm.length_eq]
  · intro p hp
    have hp2 : p ∈ List.insertionSort (rankLE v) (candRows v (latestSub f)) :=
      (List.take_sublist n _).mem hp
    exact hperm.mem_iff.mp hp2
  · exact List.Pairwise.sublist (List.take_sublist n _) hsorted
  · intro p hp q hq
    exact hsorted.rel_of_mem_take_of_mem_drop hp hq
  · intro p hp
    have h1 := List.mem_filter.mp hp
    refine ⟨h1.2, ?_⟩
    obtain ⟨i, x⟩ := p
    obtain ⟨hlt, hx⟩ := List.mem_enum h1.1
    rw [hx]
    exact List.getElem_mem hlt
  · intro r hr
    unfold latestSub at hr
    cases hy : latestYear f with
    | none =>
      rw [hy] at hr
      exact absurd hr (List.not_mem_nil r)
    | some y =>
      rw [hy] at hr
      have h2 := List.mem_filter.mp hr
      exact ⟨h2.1, beq_iff_eq.mp h2.2⟩

/-- C2 witness: on two latest-year rows with present values, the view length
is the smaller of ten and the candidate count. -/
theorem topn_latest_witness :
    (nlargestEnum Row.life_expectancy 10 (latestSub twoRowData)).length =
      min 10 (candRows Row.life_expectancy (latestSub twoRowData)).length :=
  (topn_latest_spec twoRowData Row.life_expectancy 10 (by decide)).1

/-! ### Helper lemmas about the correlation entries -/

theorem filterMap_ext {α β : Type} (F G : α → Option β) (h : ∀ a, F a = G a) :
    ∀ l : List α, l.filterMap F = l.filterMap G := by
  intro l
  induction l with
  | nil => rfl
  | cons a t ih => rw [List.filterMap_cons, List.filterMap_cons, h a, ih]

theorem map_fst_swap (ps : List (ℚ × ℚ)) :
    (ps.map Prod.swap).map Prod.fst = ps.map Prod.snd := by
  rw [List.map_map]
  exact List.map_congr_left fun p _ => rfl

theorem map_snd_swap (ps : List (ℚ × ℚ)) :
    (ps.map Prod.swap).map Prod.snd = ps.map Prod.fst := by
  rw [List.map_map]
  exact List.map_congr_left fun p _ => rfl

theorem covSum_swap (ps : List (ℚ × ℚ)) : covSum (ps.map Prod.swap) = covSum ps := by
  unfold covSum
  rw [map_fst_swap, map_snd_swap, List.map_map]
  exact congrArg List.sum (List.map_congr_left fun p _ => mul_comm _ _)

theorem corrPre_swap (ps : List (ℚ × ℚ)) : corrPre (ps.map Prod.swap) = corrPre ps := by
  unfold corrPre
  rw [List.length_map, map_fst_swap, map_snd_swap, covSum_swap,
    mul_comm (varSum (ps.map Prod.snd)) (varSum (ps.map Prod.fst))]

theorem pairColumn_swap (f : List Row) (i j : NumCol) :
    pairColumn f j i = (pairColumn f i j).map Prod.swap := by
  unfold pairColumn
  rw [List.map_filterMap]
  apply filterMap_ext
  intro r
  cases colVal i r <;> cases colVal j r <;> rfl

theorem pairColumn_diag (f : List Row) (i : NumCol) :
    pairColumn f i i = (colList f i).map fun a => (a, a) := by
  unfold pairColumn colList
  rw [List.map_filterMap]
  apply filterMap_ext
  intro r
  cases colVal i r <;> rfl

theorem map_fst_diag (l : List ℚ) : ((l.map fun a => (a, a)).map Prod.fst) = l := by
  rw [List.map_map]
  exact (List.map_congr_left fun a _ => rfl).trans (List.map_id l)

theorem map_snd_diag (l : List ℚ) : ((l.map fun a => (a, a)).map Prod.snd) = l := by
  rw [List.map_map]
  exact (List.map_congr_left fun a _ => rfl).trans (List.map_id l)

theorem covSum_diag (l : List ℚ) : covSum (l.map fun a => (a, a)) = varSum l := by
  unfold covSum varSum
  rw [map_fst_diag, map_snd_diag, List.map_map]
  exact congrArg List.sum (List.map_congr_left fun a _ => rfl)

theorem corrPre_diag (l : List ℚ) :
    corrPre (l.map fun a => (a, a)) =
      if l.length = 0 then none
      else if varSum l * varSum l = 0 then none
      else some (varSum l, varSum l * varSum l) := by
  unfold corrPre
  rw [List.length_map, map_fst_diag, map_snd_diag, covSum_diag]

theorem sum_of_const (l : List ℚ) (c : ℚ) (h : ∀ x ∈ l, x = c) :
    l.sum = l.length * c := by
  induction l with
  | nil => simp
  | cons a t ih =>
    rw [List.sum_cons, List.length_cons,
      ih fun x hx => h x (List.mem_cons_of_mem a hx), h a (List.mem_cons_self a t)]
    push_cast
    ring

theorem meanQ_of_const (l : List ℚ) (c : ℚ) (hne : l.length ≠ 0) (h : ∀ x ∈ l, x = c) :
    meanQ l = c := by
  unfold meanQ
  rw [sum_of_const l c h, mul_comm, mul_div_assoc, div_self, mul_one]
  exact Nat.cast_ne_zero.mpr hne

theorem varSum_of_const (l : List ℚ) (c : ℚ) (h : ∀ x ∈ l, x = c) : varSum l = 0 := by
  rcases l with _ | ⟨a, t⟩
  · rfl
  · have hm : meanQ (a :: t) = c := meanQ_of_const _ c (by simp) h
    unfold varSum
    rw [hm]
    have hz : ∀ y ∈ (a :: t).map fun x => (x - c) * (x - c), y = 0 := by
      intro y hy
      obtain ⟨x, hx, rfl⟩ := List.mem_map.mp hy
      simp [h x hx]
    rw [sum_of_const _ 0 hz, mul_zero]

theorem varSum_of_pairwise_eq (l : List ℚ) (h : ∀ a ∈ l, ∀ b ∈ l, a = b) :
    varSum l = 0 := by
  rcases l with _ | ⟨a, t⟩
  · rfl
  · exact varSum_of_const (a :: t) a fun x hx => h x hx a (List.mem_cons_self a t)

theorem varSum_nonneg (l : List ℚ) : 0 ≤ varSum l := by
  unfold varSum
  apply List.sum_nonneg
  intro x hx
  obtain ⟨a, _, rfl⟩ := List.mem_map.mp hx
  exact mul_self_nonneg _

theorem mem_fst_pairColumn {f : List Row} {i j : NumCol} {x : ℚ}
    (hx : x ∈ (pairColumn f i j).map Prod.fst) : x ∈ colList f i := by
  obtain ⟨p, hp, rfl⟩ := List.mem_map.mp hx
  unfold pairColumn at hp
  obtain ⟨r, hr, hm⟩ := List.mem_filterMap.mp hp
  unfold colList
  apply List.mem_filterMap.mpr
  refine ⟨r, hr, ?_⟩
  cases hci : colVal i r with
  | none =>
    rw [hci] at hm
    cases colVal j r <;> exact absurd hm (by simp)
  | some a =>
    rw [hci] at hm
    cases hcj : colVal j r with
    | none =>
      rw [hcj] at hm
      exact absurd hm (by simp)
    | some b =>
      rw [hcj] at hm
      obtain rfl := Option.some_inj.mp hm
      rfl

theorem corrEntry_none_of_const {f : List Row} {i : NumCol}
    (hconst : ∀ a ∈ colList f i, ∀ b ∈ colList f i, a = b) (k : NumCol) :
    corrEntry f i k = none := by
  unfold corrEntry
  have hvx : varSum ((pairColumn f i k).map Prod.fst) = 0 :=
    varSum_of_pairwise_eq _ fun a ha b hb =>
      hconst a (mem_fst_pairColumn ha) b (mem_fst_pairColumn hb)
  unfold corrPre
  split
  · rfl
  · rw [hvx, zero_mul, if_pos rfl]

theorem filterMap_filter_none {α β : Type} (F : α → Option β) (q : α → Bool)
    (h : ∀ a, q a = false → F a = none) (l : List α) :
    (l.filter q).filterMap F = l.filterMap F := by
  induction l with
  | nil => rfl
  | cons a t ih =>
    rw [List.filter_cons]
    by_cases hq : q a = true
    · rw [if_pos hq, List.filterMap_cons, List.filterMap_cons, ih]
    · have hF : F a = none := h a (by simpa using hq)
      rw [if_neg hq, List.filterMap_cons, hF, ih]

theorem pairColumn_filter_both (f : List Row) (i j : NumCol) :
    pairColumn (f.filter fun r => (colVal i r).isSome && (colVal j r).isSome) i j =
      pairColumn f i j := by
  unfold pairColumn
  apply filterMap_filter_none
  intro r hq
  cases hci : colVal i r with
  | none => cases colVal j r <;> rfl
  | some a =>
    cases hcj : colVal j r with
    | none => rfl
    | some b =>
      rw [hci, hcj] at hq
      simp at hq

/-! ### Claim theorems: correlation matrix -/

unseal Rat.add Rat.mul Rat.inv Rat.sub in
/-- C4 counterexample: on a column constant at five, the diagonal entry of
the correlation matrix is missing (pandas emits NaN there), not exactly
one. -/
theorem correlation_constant_diag_counterexample :
    corrEntry constantGdpData NumCol.gdp NumCol.gdp = none := by decide

/-- C4 amended: the correlation matrix is symmetric; every defined diagonal
entry denotes exactly one, and a diagonal entry is missing rather than one
exactly when the column has no observation or zero variance; every entry
involving a column constant on its non-missing rows is missing (not an
error, not a zero); and every entry is pairwise-complete, depending only on
the rows in which both involved columns are non-missing. -/
theorem correlation_matrix_spec (f : List Row) (i j : NumCol) :
    corrEntry f i j = corrEntry f j i ∧
    (∀ p : ℚ × ℚ, corrEntry f i i = some p → denotesOne p) ∧
    ((∀ a ∈ colList f i, ∀ b ∈ colList f i, a = b) →
      corrEntry f i j = none ∧ corrEntry f j i = none) ∧
    corrEntry (f.filter fun r => (colVal i r).isSome && (colVal j r).isSome) i j =
      corrEntry f i j := by
  have hsymm : corrEntry f i j = corrEntry f j i := by
    unfold corrEntry
    rw [pairColumn_swap f i j, corrPre_swap]
  refine ⟨hsymm, ?_, ?_, ?_⟩
  · intro p hp
    rw [corrEntry, pairColumn_diag, corrPre_diag] at hp
    by_cases h0 : (colList f i).length = 0
    · rw [if_pos h0] at hp
      exact absurd hp (by simp)
    · rw [if_neg h0] at hp
      by_cases hv : varSum (colList f i) * varSum (colList f i) = 0
      · rw [if_pos hv] at hp
        exact absurd hp (by simp)
      · rw [if_neg hv] at hp
        have hp2 := Option.some_inj.mp hp
        have hvne : varSum (colList f i) ≠ 0 := mul_self_ne_zero.mp hv
        rw [← hp2]
        exact ⟨lt_of_le_of_ne (varSum_nonneg _) (Ne.symm hvne), rfl⟩
  · intro hconst
    refine ⟨corrEntry_none_of_const hconst j, ?_⟩
    rw [← hsymm]
    exact corrEntry_none_of_const hconst j
  · unfold corrEntry
    rw [pairColumn_filter_both]

unseal Rat.add Rat.mul Rat.inv Rat.sub in
/-- C4 witness: on the two-valued gdp column the diagonal entry is defined
and denotes exactly one. -/
theorem correlation_witness : denotesOne ((1 : ℚ) / 2, 1 / 4) :=
  (correlation_matrix_spec twoGdpData NumCol.gdp NumCol.gdp).2.1
    ((1 : ℚ) / 2, 1 / 4) (by decide)

/-! ### Claim theorems: empty input behavior -/

/-- C6 counterexample: on a zero-row filtered dataset the top-N view and the
distribution view return empty results silently; no error of any kind is
raised (the aggregations are total functions). -/
theorem empty_input_counterexample :
    top10Model ([] : List Row) = [] ∧ distributionModel ([] : List Row) = [] :=
  ⟨rfl, rfl⟩

/-- C6 amended: on a zero-row filtered dataset the maximum year is missing,
the top-N view returns the empty row list and the distribution view returns
no bins; no error is raised.  (The app never reaches these calls on empty
data: it halts with a warning first, see the pipeline theorem.) -/
theorem empty_input_returns_empty (f : List Row) (h : f.length = 0) :
    latestYear f = none ∧ top10Model f = [] ∧ distributionModel f = [] := by
  rw [List.length_eq_zero] at h
  subst h
  exact ⟨rfl, rfl, rfl⟩

/-- C6 witness: the empty dataset satisfies the amended statement. -/
theorem empty_input_witness : latestYear ([] : List Row) = none :=
  (empty_input_returns_empty [] rfl).1

/-! ### Claim theorems: schema errors -/

/-- C7 counterexample: normalization returns a value, with no error of any
kind, both on a whitespace-only name (which collapses to the empty string)
and on two distinct raw names that collide on the same canonical name. -/
theorem schema_error_counterexample :
    cleanColumns [" ", "a b", "a-b"] = ["", "a_b", "a_b"] := by decide

/-- C7 amended: schema normalization never fails: it is total and returns
one name per raw name even when a normalized name is empty or when two
distinct raw names collide on the same canonical name. -/
theorem schema_no_error (names : List String) :
    (cleanColumns names).length = names.length ∧
    normalizeName " " = "" ∧
    normalizeName "a b" = "a_b" ∧ normalizeName "a-b" = "a_b" := by
  refine ⟨?_, by decide, by decide, by decide⟩
  unfold cleanColumns
  exact List.length_map names normalizeName

/-! ### Claim theorems: the empty-filter guard of the pipeline -/

/-- C10: the pipeline halts (returns none) exactly when the filtered dataset
is empty, and whenever it does produce views, the filtered dataset has at
least one row and every view is computed on that nonempty filtered dataset;
hence no aggregation is ever evaluated on an empty filtered dataset. -/
theorem empty_guard_pipeline (df : List Row) (selY : List Int) (selS : List String) :
    (pipeline df selY selS = none ↔ filterD df selY selS = []) ∧
    (∀ v : Views, pipeline df selY selS = some v →
      1 ≤ (filterD df selY selS).length ∧
      v.avgLife = yearlyMean (filterD df selY selS) ∧
      v.topCountries = top10Model (filterD df selY selS) ∧
      v.lifeDist = distributionModel (filterD df selY selS) ∧
      v.corrMat = fun i j => corrEntry (filterD df selY selS) i j) := by
  cases hg : filterD df selY selS with
  | nil =>
    constructor
    · simp [pipeline, hg]
    · intro v hv
      rw [pipeline, hg] at hv
      exact absurd hv (by simp)
  | cons r t =>
    constructor
    · simp [pipeline, hg]
    · intro v hv
      rw [pipeline, hg] at hv
      simp only [List.isEmpty_cons, if_neg] at hv
      have hv2 := Option.some_inj.mp hv
      rw [← hv2]
      exact ⟨by simp, rfl, rfl, rfl, rfl⟩

/-- C10 witness: on the one-row pipeline sample the views are produced and
the filtered dataset indeed has at least one row. -/
theorem empty_guard_witness :
    1 ≤ (filterD pipelineData [2000] ["Developing"]).length :=
  ((empty_guard_pipeline pipelineData [2000] ["Developing"]).2 pipelineViews rfl).1
